import Mathlib

/-!
Shallow embedding of the `stream` library's core components, verified against
the repository sources:

* `src/src/utils/protocol.ts` — protocol dispatcher with memoization cache
* `src/unnamed/part_008` — publisher status transition table and `DataQueue`
* `src/src/utils/cache.ts` — `LRUCache`
* `src/src/utils/reconnect.ts` — `ReconnectManager`
* `src/unnamed/part_005` — `ConnectionPool`
* `src/src/server/publisher.ts` — `ServerPublisher` session state machine
* `src/src/server/subscriber.ts` — `ServerSubscriber` session state machine

JavaScript `Map`s are modelled as association lists in insertion order
(`Map.set` of a fresh key appends; `Map.delete` removes; `Map.set` of an
existing key updates in place), wall-clock times as `Nat` parameters, and
awaited external effects (process spawn, socket server setup) as explicit
outcome parameters.
-/

namespace Stream

/-- The five protocol tags of `StreamProtocol` in `src/src/types.ts`. -/
inductive StreamProtocol
  | rtmp | hls | flv | webrtc | dash
deriving DecidableEq, Repr

/-- Substring test: JS `String.prototype.includes`. -/
def strContains (s pat : String) : Bool :=
  decide (List.IsInfix pat.data s.data)

/-- Prefix test: JS `String.prototype.startsWith`. -/
def strStartsWith (s pre : String) : Bool :=
  decide (List.IsPrefix pre.data s.data)

/-- Lowercasing: JS `String.prototype.toLowerCase` (ASCII range). -/
def strToLower (s : String) : String :=
  ⟨s.data.map Char.toLower⟩

/-- The if/else chain of `detectProtocol` (`src/src/utils/protocol.ts`,
lines 43-69), applied to the already-lowercased URL. -/
def detectChain (lowerUrl : String) : StreamProtocol :=
  if strStartsWith lowerUrl "rtmp://" then .rtmp
  else if strContains lowerUrl ".m3u8" || strContains lowerUrl "/hls/" then .hls
  else if strContains lowerUrl ".flv" || strContains lowerUrl "/flv/" then .flv
  else if strStartsWith lowerUrl "ws://" || strStartsWith lowerUrl "wss://" ||
      strContains lowerUrl "/webrtc/" then .webrtc
  else if strContains lowerUrl ".mpd" || strContains lowerUrl "/dash/" then .dash
  else .rtmp

/-- The cache-free part of `detectProtocol`: lowercase the URL, then run the
ordered first-match chain (source lines 39-69). -/
def detectRule (url : String) : StreamProtocol :=
  detectChain (strToLower url)

/-- The pure ordered first-match rule exactly as the specification words it
(spec §4.1): matched against the URL as given, with no mention of
case-folding.  Used only to compare the spec's rule with the source's. -/
def specFirstMatchRule (url : String) : StreamProtocol :=
  if strStartsWith url "rtmp://" then .rtmp
  else if strContains url ".m3u8" || strContains url "/hls/" then .hls
  else if strContains url ".flv" || strContains url "/flv/" then .flv
  else if strStartsWith url "ws://" || strStartsWith url "wss://" ||
      strContains url "/webrtc/" then .webrtc
  else if strContains url ".mpd" || strContains url "/dash/" then .dash
  else .rtmp

/-- The module-level memoization cache `protocolCache`: a JS `Map` from URL to
protocol, in insertion order. -/
abbrev ProtocolCache := List (String × StreamProtocol)

/-- JS `Map.get` on an association list. -/
def mapFind {K V : Type} [DecidableEq K] : List (K × V) → K → Option V
  | [], _ => none
  | (k', v) :: rest, k => if k = k' then some v else mapFind rest k

/-- `detectProtocol(url)` (`src/src/utils/protocol.ts`, lines 32-77):
consult the cache; on a miss run the rule chain and cache the result only
while the cache holds fewer than 1000 entries.  Returns the protocol and the
updated cache. -/
def detectProtocol (cache : ProtocolCache) (url : String) :
    StreamProtocol × ProtocolCache :=
  match mapFind cache url with
  | some cached => (cached, cache)
  | none =>
      let protocol := detectRule url
      if cache.length < 1000 then (protocol, cache ++ [(url, protocol)])
      else (protocol, cache)

/-- `clearProtocolCache()` (source lines 82-84). -/
def clearProtocolCache (_cache : ProtocolCache) : ProtocolCache := []

/-- Cache well-formedness: every cached answer is the one the rule chain
computes.  Holds for every cache reachable through the module's API, whose
only writers are `detectProtocol` and `clearProtocolCache`. -/
def CacheWF (cache : ProtocolCache) : Prop :=
  ∀ p ∈ cache, p.2 = detectRule p.1

instance (cache : ProtocolCache) : Decidable (CacheWF cache) := by
  unfold CacheWF; infer_instance

/-- JS `Map.delete` on an association list: removes the (unique) binding. -/
def mapDelete {K V : Type} [DecidableEq K] : List (K × V) → K → List (K × V)
  | [], _ => []
  | (k', v) :: rest, k => if k = k' then rest else (k', v) :: mapDelete rest k

/-- JS `Map.set` on an association list: update in place if the key is
present, otherwise append at the end (insertion order). -/
def mapSet {K V : Type} [DecidableEq K] : List (K × V) → K → V → List (K × V)
  | [], k, v => [(k, v)]
  | (k', v') :: rest, k, v =>
      if k = k' then (k', v) :: rest else (k', v') :: mapSet rest k v

/-- Key list of an association list, in insertion order. -/
def keysOf {K V : Type} (l : List (K × V)) : List K := l.map Prod.fst

/-- `CacheItem<T>` of `src/src/utils/cache.ts`. -/
structure CacheItem (V : Type) where
  value : V
  timestamp : Nat
  accessCount : Nat
deriving DecidableEq, Repr

/-- `LRUCache<K, V>` of `src/src/utils/cache.ts`: the backing JS `Map` (as an
association list in insertion order), `maxSize` and the optional `ttl`. -/
structure LRUCache (K V : Type) where
  cache : List (K × CacheItem V)
  maxSize : Nat
  ttl : Option Nat
deriving DecidableEq, Repr

/-- The TTL test `this.ttl && Date.now() - item.timestamp > this.ttl`
(truthiness: an absent or zero `ttl` disables expiry; `Nat` subtraction
agrees with the JS comparison because a negative age is never `> ttl`). -/
def ttlExpired (ttl : Option Nat) (now ts : Nat) : Bool :=
  match ttl with
  | none => false
  | some t => decide (0 < t) && decide (t < now - ts)

/-- `LRUCache.get` (`src/src/utils/cache.ts`, lines 50-69): miss on absence;
lazily evict an expired entry; otherwise bump the access count and move the
entry to the most-recently-used (last) position. -/
def LRUCache.get {K V : Type} [DecidableEq K] (c : LRUCache K V) (now : Nat)
    (k : K) : Option V × LRUCache K V :=
  match mapFind c.cache k with
  | none => (none, c)
  | some item =>
      if ttlExpired c.ttl now item.timestamp then
        (none, { c with cache := mapDelete c.cache k })
      else
        let item' := { item with accessCount := item.accessCount + 1 }
        (some item'.value,
          { c with cache := mapSet (mapDelete c.cache k) k item' })

/-- `LRUCache.set` (`src/src/utils/cache.ts`, lines 77-104): update and
reorder to MRU when present; otherwise evict the structurally first (least
recently used) entry when at `maxSize`, then append the new entry. -/
def LRUCache.set {K V : Type} [DecidableEq K] (c : LRUCache K V) (now : Nat)
    (k : K) (v : V) : LRUCache K V :=
  match mapFind c.cache k with
  | some item =>
      let item' : CacheItem V :=
        { value := v, timestamp := now, accessCount := item.accessCount + 1 }
      { c with cache := mapSet (mapDelete c.cache k) k item' }
  | none =>
      let afterEvict :=
        if c.maxSize ≤ c.cache.length then
          match (keysOf c.cache).head? with
          | some firstKey => mapDelete c.cache firstKey
          | none => c.cache
        else c.cache
      { c with cache :=
          mapSet afterEvict k { value := v, timestamp := now, accessCount := 1 } }

/-- Folding `set` over a list of key/value pairs (sequential inserts). -/
def LRUCache.setAll {K V : Type} [DecidableEq K] (c : LRUCache K V) (now : Nat)
    (kvs : List (K × V)) : LRUCache K V :=
  kvs.foldl (fun acc kv => acc.set now kv.1 kv.2) c

/-- The two optional callbacks a `DataQueue` can be constructed with
(`src/unnamed/part_008`, `QueueOptions`). -/
inductive QueueCallback
  | onFull | onEmpty
deriving DecidableEq, Repr

/-- `DataQueue<T>` of `src/unnamed/part_008`: the backing array, the bounds,
and which optional callbacks were supplied at construction. -/
structure DataQueue (T : Type) where
  queue : List T
  maxSize : Nat
  batchSize : Nat
  hasOnFull : Bool
  hasOnEmpty : Bool
deriving DecidableEq, Repr

/-- `DataQueue.enqueue` (`src/unnamed/part_008`, lines 230-245).  Returns the
boolean result, the new queue, and the callbacks invoked during the call. -/
def DataQueue.enqueue {T : Type} (q : DataQueue T) (data : T) :
    Bool × DataQueue T × List QueueCallback :=
  if q.maxSize ≤ q.queue.length then
    (false, q, if q.hasOnFull then [.onFull] else [])
  else
    let q' := { q with queue := q.queue ++ [data] }
    (true, q',
      if q'.queue.length = 1 then
        (if q.hasOnEmpty then [.onEmpty] else [])
      else [])

/-- `DataQueue.dequeueBatch` (`src/unnamed/part_008`, lines 252-259):
`splice(0, batchSize)` removes and returns the FIFO prefix. -/
def DataQueue.dequeueBatch {T : Type} (q : DataQueue T) :
    List T × DataQueue T × List QueueCallback :=
  if q.queue.length = 0 then ([], q, [])
  else (q.queue.take q.batchSize, { q with queue := q.queue.drop q.batchSize }, [])

/-- `DataQueue.clear` (`src/unnamed/part_008`, lines 285-287). -/
def DataQueue.clear {T : Type} (q : DataQueue T) :
    DataQueue T × List QueueCallback :=
  ({ q with queue := [] }, [])

/-- The numeric options of `ReconnectManager` (`src/src/utils/reconnect.ts`).
`maxAttempts` is `none` for the default `Infinity`; delays and the multiplier
are JS numbers, modelled as rationals. -/
structure ReconnectConfig where
  maxAttempts : Option Nat
  initialDelay : ℚ
  maxDelay : ℚ
  backoffMultiplier : ℚ
deriving DecidableEq, Repr

/-- `attempts >= this.options.maxAttempts` (always false for `Infinity`). -/
def ReconnectConfig.atMax (cfg : ReconnectConfig) (attempts : Nat) : Bool :=
  match cfg.maxAttempts with
  | none => false
  | some m => decide (m ≤ attempts)

/-- The backoff formula of `reconnect` (source lines 72-76):
`Math.min(initialDelay * backoffMultiplier ** attempts, maxDelay)`. -/
def reconnectDelay (cfg : ReconnectConfig) (attempts : Nat) : ℚ :=
  min (cfg.initialDelay * cfg.backoffMultiplier ^ attempts) cfg.maxDelay

/-- How a run of `reconnect(connectFn)` ends: the connect function succeeded,
the terminal max-attempts error was thrown, or the scripted outcomes ran out
before the run ended (never reached by the theorems below). -/
inductive ReconnectOutcome
  | success | terminalError | pending
deriving DecidableEq, Repr

/-- Observable trace of one `reconnect(connectFn)` call. -/
structure ReconnectRun where
  delays : List ℚ
  calls : Nat
  onFailedCalls : Nat
  outcome : ReconnectOutcome
  finalAttempts : Nat
deriving DecidableEq, Repr

/-- `ReconnectManager.reconnect` (`src/src/utils/reconnect.ts`, lines 56-96),
driven by a script of `connectFn` outcomes (`true` = resolves, `false` =
rejects), starting from the given `attempts` counter.  Each iteration checks
the cap, awaits the backoff delay, increments `attempts`, and calls
`connectFn`; success resets `attempts` to 0, failure recurses. -/
def reconnectRun (cfg : ReconnectConfig) :
    List Bool → Nat → ReconnectRun
  | outcomes, attempts =>
    if cfg.atMax attempts then
      { delays := [], calls := 0, onFailedCalls := 1,
        outcome := .terminalError, finalAttempts := attempts }
    else
      let d := reconnectDelay cfg attempts
      match outcomes with
      | [] =>
          { delays := [d], calls := 0, onFailedCalls := 0,
            outcome := .pending, finalAttempts := attempts }
      | ok :: rest =>
          if ok then
            { delays := [d], calls := 1, onFailedCalls := 0,
              outcome := .success, finalAttempts := 0 }
          else
            let r := reconnectRun cfg rest (attempts + 1)
            { delays := d :: r.delays, calls := r.calls + 1,
              onFailedCalls := r.onFailedCalls, outcome := r.outcome,
              finalAttempts := r.finalAttempts }

/-- `ConnectionInfo` of `src/unnamed/part_005`. -/
structure ConnInfo where
  id : String
  url : String
  connection : Nat
  createdAt : Nat
  lastUsed : Nat
  isActive : Bool
deriving DecidableEq, Repr

/-- `ConnectionPool` of `src/unnamed/part_005`: the JS `Map` of connections
keyed by origin, plus the relevant numeric options (the timers and the
connect timeout are outside the sequential model). -/
structure ConnectionPool where
  connections : List (String × ConnInfo)
  maxConnections : Nat
  idleTimeout : Nat
deriving DecidableEq, Repr

/-- Errors `getConnection` can throw. -/
inductive PoolError
  | poolFull (max : Nat)
  | createFailed
deriving DecidableEq, Repr

/-- `cleanupIdleConnections` (`src/unnamed/part_005`, lines 182-203): drop
entries that are inactive and idle beyond `idleTimeout`. -/
def cleanupIdleConnections (p : ConnectionPool) (now : Nat) : ConnectionPool :=
  { p with connections := (p.connections.filter
      (fun e => e.2.isActive || decide (now - e.2.lastUsed ≤ p.idleTimeout))) }

/-- Result of one `getConnection` call: the value or error, the new pool, and
whether the factory was invoked. -/
structure GetConnResult where
  result : Except PoolError Nat
  pool : ConnectionPool
  factoryInvoked : Bool
deriving Repr

/-- The slow path of `getConnection` (no active entry): capacity check with
idle sweep, then run the factory (`factoryResult` scripts its outcome:
`some c` = resolves to connection `c` in time, `none` = rejects or times
out) and register the new active entry. -/
def getConnectionCreate (p : ConnectionPool) (id url : String) (now : Nat)
    (factoryResult : Option Nat) : GetConnResult :=
  let p1 := if p.maxConnections ≤ p.connections.length then
      cleanupIdleConnections p now
    else p
  if p.maxConnections ≤ p1.connections.length then
    { result := .error (.poolFull p.maxConnections), pool := p1,
      factoryInvoked := false }
  else
    match factoryResult with
    | some c =>
        let entry : ConnInfo :=
          { id := id, url := url, connection := c, createdAt := now,
            lastUsed := now, isActive := true }
        { result := .ok c,
          pool := { p1 with connections := mapSet p1.connections id entry },
          factoryInvoked := true }
    | none =>
        { result := .error .createFailed, pool := p1, factoryInvoked := true }

/-- `ConnectionPool.getConnection` (`src/unnamed/part_005`, lines 69-135).
`keyOf` is `getConnectionId` (origin `scheme://host` of the URL, or the URL
itself when unparsable). -/
def getConnection (keyOf : String → String) (p : ConnectionPool)
    (url : String) (now : Nat) (factoryResult : Option Nat) : GetConnResult :=
  let id := keyOf url
  match mapFind p.connections id with
  | some existing =>
      if existing.isActive then
        let bumped := mapSet p.connections id { existing with lastUsed := now }
        { result := .ok existing.connection,
          pool := { p with connections := bumped },
          factoryInvoked := false }
      else getConnectionCreate p id url now factoryResult
  | none => getConnectionCreate p id url now factoryResult

/-- `ConnectionPool.releaseConnection` (`src/unnamed/part_005`, lines
143-157).  Returns the new pool and whether the connection object was
closed. -/
def releaseConnection (keyOf : String → String) (p : ConnectionPool)
    (url : String) (close : Bool) : ConnectionPool × Bool :=
  let id := keyOf url
  match mapFind p.connections id with
  | none => (p, false)
  | some c =>
      if close then
        ({ p with connections := mapDelete p.connections id }, true)
      else
        ({ p with connections :=
            mapSet p.connections id { c with isActive := false } }, false)

/-- `PublisherStatus` of `src/src/types.ts`. -/
inductive PublisherStatus
  | idle | connecting | connected | publishing | stopped | error
deriving DecidableEq, Repr

/-- `SubscriberStatus` of `src/src/types.ts`. -/
inductive SubscriberStatus
  | idle | connecting | connected | playing | buffering | stopped | error
deriving DecidableEq, Repr

/-- String form of a publisher status, as interpolated into error messages. -/
def PublisherStatus.jsName : PublisherStatus → String
  | .idle => "idle"
  | .connecting => "connecting"
  | .connected => "connected"
  | .publishing => "publishing"
  | .stopped => "stopped"
  | .error => "error"

/-- String form of a subscriber status. -/
def SubscriberStatus.jsName : SubscriberStatus → String
  | .idle => "idle"
  | .connecting => "connecting"
  | .connected => "connected"
  | .playing => "playing"
  | .buffering => "buffering"
  | .stopped => "stopped"
  | .error => "error"

/-- `PUBLISHER_STATUS_TRANSITIONS` (`src/unnamed/part_008`, lines 30-40). -/
def publisherTransitions : PublisherStatus → List PublisherStatus
  | .idle => [.connecting]
  | .connecting => [.connected, .error]
  | .connected => [.publishing, .stopped, .error]
  | .publishing => [.stopped, .error]
  | .stopped => [.idle]
  | .error => [.idle, .stopped]

/-- `isValidPublisherTransition` (`src/unnamed/part_008`, lines 79-84). -/
def isValidPublisherTransition (current next : PublisherStatus) : Bool :=
  (publisherTransitions current).contains next

/-- The errors thrown by the server sessions, separated by JS class:
`plainError` is a bare `new Error(msg)`, the `State` constructors are the
typed `PublisherStateError`/`SubscriberStateError` of
`src/src/utils/errors.ts` (carrying current and expected status), and
`externalError` stands for a rethrown failure of an external collaborator. -/
inductive StreamErr
  | plainError (msg : String)
  | publisherState (current expected : PublisherStatus)
  | subscriberState (current expected : SubscriberStatus)
  | externalError
deriving DecidableEq, Repr

/-- `MediaSource` (`src/src/types.ts`): a file path, a `Blob`/`File` (its
inferred extension precomputed, per `getExtensionForBlob`), or a
`MediaStream`-like object (rejected by the server publisher). -/
inductive MediaSrc
  | path (p : String)
  | blob (ext : String)
  | mediaStream
deriving DecidableEq, Repr

/-- Externally visible side effects of `ServerPublisher` methods: process
spawns, temp-artifact management, and resource teardown. -/
inductive PubAction
  | createIoServer
  | makeTempFile (path : String)
  | writeTempFile (path : String)
  | spawnFFmpeg
  | makeHlsTempDir (path : String)
  | spawnHlsTranscode
  | closeIoServer
  | stopHlsProcess
  | removeDir (path : String)
  | stopFFmpegProcess
  | removeFile (path : String)
  | clearListeners
deriving DecidableEq, Repr

/-- The mutable fields of `ServerPublisher` (`src/src/server/publisher.ts`,
lines 45-77).  Handles are presence flags (`hasIo`, `ffmpegProcess`,
`hlsProcess`), tracked temp artifacts are optional paths, `quality` is an
abstract id. -/
structure PublisherState where
  streamId : String
  status : PublisherStatus
  url : Option String
  hasIo : Bool
  quality : Option Nat
  audioEnabled : Bool
  videoEnabled : Bool
  loop : Option Bool
  startTime : Option Nat
  ffmpegProcess : Bool
  tempFilePath : Option String
  hlsPlaylistPath : Option String
  hlsTempDir : Option String
  hlsProcess : Bool
  listeners : List String
deriving DecidableEq, Repr

/-- A fresh `ServerPublisher` (constructor, source lines 69-77). -/
def ServerPublisher.new (streamId : String) (hasIo : Bool)
    (quality : Option Nat := none) (audioEnabled : Bool := true)
    (videoEnabled : Bool := true) (loop : Option Bool := none) :
    PublisherState :=
  { streamId := streamId, status := .idle, url := none, hasIo := hasIo,
    quality := quality, audioEnabled := audioEnabled,
    videoEnabled := videoEnabled, loop := loop, startTime := none,
    ffmpegProcess := false, tempFilePath := none, hlsPlaylistPath := none,
    hlsTempDir := none, hlsProcess := false, listeners := [] }

/-- Result of one awaited `ServerPublisher` method call: the final state, the
thrown error (if any), every value assigned to `this.status` during the call
in order, and the external actions attempted. -/
structure PubResult where
  state : PublisherState
  err : Option StreamErr
  statusWrites : List PublisherStatus
  actions : List PubAction
deriving DecidableEq, Repr

/-- Where `connect`'s try block fails, if it does: before `this.io` is
assigned (the `new Server` call throws), or after (e.g. `listen` rejects). -/
inductive ConnectOutcome
  | success
  | failBeforeServerAssign
  | failAfterServerAssign
deriving DecidableEq, Repr

/-- `ServerPublisher.connect` (`src/src/server/publisher.ts`, lines 82-122).
A non-`idle` status throws a bare `Error` naming only the current status;
otherwise the url/options are stored, status goes to `connecting`, the
Socket.io server is created if absent, and status ends at `connected`, or at
`error` with the underlying failure rethrown. -/
def ServerPublisher.connect (s : PublisherState) (url : String)
    (optLoop : Option Bool) (o : ConnectOutcome) : PubResult :=
  if s.status ≠ .idle then
    { state := s,
      err := some (.plainError ("推流器状态错误，当前状态: " ++ s.status.jsName)),
      statusWrites := [], actions := [] }
  else
    let s1 := { s with url := some url,
                       loop := match optLoop with
                               | some b => some b
                               | none => s.loop,
                       status := .connecting }
    match o with
    | .success =>
        { state := { s1 with hasIo := true, status := .connected },
          err := none, statusWrites := [.connecting, .connected],
          actions := if s.hasIo then [] else [.createIoServer] }
    | .failBeforeServerAssign =>
        { state := { s1 with status := .error },
          err := some .externalError,
          statusWrites := [.connecting, .error],
          actions := if s.hasIo then [] else [.createIoServer] }
    | .failAfterServerAssign =>
        { state := { s1 with hasIo := true, status := .error },
          err := some .externalError,
          statusWrites := [.connecting, .error],
          actions := if s.hasIo then [] else [.createIoServer] }

/-- Scripted outcomes of the awaited external steps inside `publish`. -/
structure PublishOutcome where
  tempFileName : String
  tempWriteOk : Bool
  hlsTempDirName : String
  mkHlsDirOk : Bool
  hlsPlaylistName : String
  spawnOk : Bool
deriving DecidableEq, Repr

/-- The failure exit of `publish`'s try block (source lines 269-273): status
goes to `error` and the error is rethrown. -/
def publishFail (s1 : PublisherState) (e : StreamErr) (acts : List PubAction) :
    PubResult :=
  { state := { s1 with status := .error }, err := some e,
    statusWrites := [.publishing, .error], actions := acts }

/-- The protocol dispatch of `publish` after the media source has been
resolved to a file path (source lines 209-268). -/
def publishDispatch (s1 : PublisherState) (url : String) (o : PublishOutcome)
    (acts : List PubAction) : PubResult :=
  match detectRule url with
  | .rtmp | .flv =>
      if o.spawnOk then
        { state := { s1 with ffmpegProcess := true }, err := none,
          statusWrites := [.publishing], actions := acts ++ [.spawnFFmpeg] }
      else publishFail s1 .externalError (acts ++ [.spawnFFmpeg])
  | .hls =>
      if o.mkHlsDirOk then
        let s2 := { s1 with hlsTempDir := some o.hlsTempDirName }
        if o.spawnOk then
          { state := { s2 with hlsPlaylistPath := some o.hlsPlaylistName,
                               hlsProcess := true },
            err := none, statusWrites := [.publishing],
            actions := acts ++ [.makeHlsTempDir o.hlsTempDirName,
                                .spawnHlsTranscode] }
        else publishFail s2 .externalError
          (acts ++ [.makeHlsTempDir o.hlsTempDirName, .spawnHlsTranscode])
      else publishFail s1 .externalError (acts ++ [.makeHlsTempDir o.hlsTempDirName])
  | .webrtc =>
      publishFail s1 (.plainError "WebRTC 推流需要信令服务器支持，请使用专门的 WebRTC 适配器") acts
  | .dash =>
      publishFail s1 (.plainError "协议 dash 的推流尚未实现") acts

/-- `ServerPublisher.publish` (`src/src/server/publisher.ts`, lines 178-274).
Outside `connected` it throws `PublisherStateError(streamId, status,
"connected")` before any side effect; otherwise status goes to `publishing`,
the media source is resolved (a blob is written to a tracked temp file), and
the protocol strategy runs, ending in `publishing` on success or `error` on
failure. -/
def ServerPublisher.publish (s : PublisherState) (now : Nat)
    (source : MediaSrc) (o : PublishOutcome) : PubResult :=
  if s.status ≠ .connected then
    { state := s, err := some (.publisherState s.status .connected),
      statusWrites := [], actions := [] }
  else
    match s.url with
    | none =>
        { state := s, err := some (.plainError "推流 URL 未设置"),
          statusWrites := [], actions := [] }
    | some url =>
        let s1 := { s with status := .publishing, startTime := some now }
        match source with
        | .mediaStream =>
            publishFail s1
              (.plainError "服务端推流仅支持文件路径、Blob、File；MediaStream 请使用客户端推流器") []
        | .path _ => publishDispatch s1 url o []
        | .blob _ =>
            if o.tempWriteOk then
              publishDispatch
                { s1 with tempFilePath := some o.tempFileName } url o
                [.makeTempFile o.tempFileName, .writeTempFile o.tempFileName]
            else
              publishFail s1 .externalError [.makeTempFile o.tempFileName]

/-- `ServerPublisher.stop` (`src/src/server/publisher.ts`, lines 279-371).
No-op from `idle`/`stopped`; otherwise status is set to `stopped` and the
fixed cleanup sequence runs with every step's failure swallowed, so the
resulting state does not depend on step outcomes and no error escapes. -/
def ServerPublisher.stop (s : PublisherState) : PubResult :=
  if s.status = .idle ∨ s.status = .stopped then
    { state := s, err := none, statusWrites := [], actions := [] }
  else
    let acts :=
      (if s.hasIo then [PubAction.closeIoServer] else []) ++
      (if s.hlsProcess then [PubAction.stopHlsProcess] else []) ++
      (match s.hlsTempDir with
       | some d => [PubAction.removeDir d]
       | none => []) ++
      (if s.ffmpegProcess then [PubAction.stopFFmpegProcess] else []) ++
      (match s.tempFilePath with
       | some f => [PubAction.removeFile f]
       | none => []) ++
      [PubAction.clearListeners]
    let cleared : PublisherState :=
      { s with status := .stopped, hasIo := false, hlsProcess := false,
               hlsTempDir := none,
               hlsPlaylistPath := (if s.hlsTempDir.isSome then none
                                   else s.hlsPlaylistPath),
               ffmpegProcess := false, tempFilePath := none, listeners := [] }
    { state := cleared, err := none, statusWrites := [.stopped],
      actions := acts }

/-- `ServerPublisher.setVideoQuality` (source lines 376-387): stores the
quality and emits a best-effort signal; never touches `status`. -/
def ServerPublisher.setVideoQuality (s : PublisherState) (q : Nat) :
    PubResult :=
  { state := { s with quality := some q }, err := none, statusWrites := [],
    actions := [] }

/-- `ServerPublisher.setAudioEnabled` (source lines 392-403). -/
def ServerPublisher.setAudioEnabled (s : PublisherState) (b : Bool) :
    PubResult :=
  { state := { s with audioEnabled := b }, err := none, statusWrites := [],
    actions := [] }

/-- `ServerPublisher.setVideoEnabled` (source lines 408-419). -/
def ServerPublisher.setVideoEnabled (s : PublisherState) (b : Bool) :
    PubResult :=
  { state := { s with videoEnabled := b }, err := none, statusWrites := [],
    actions := [] }

/-- One sequential, awaited call to a public `ServerPublisher` method,
together with the scripted outcomes of its awaited external steps. -/
inductive PubCall
  | connect (url : String) (optLoop : Option Bool) (o : ConnectOutcome)
  | publish (now : Nat) (source : MediaSrc) (o : PublishOutcome)
  | stop
  | setVideoQuality (q : Nat)
  | setAudioEnabled (b : Bool)
  | setVideoEnabled (b : Bool)
deriving DecidableEq, Repr

/-- Dispatch one call. -/
def pubStep (s : PublisherState) : PubCall → PubResult
  | .connect url optLoop o => ServerPublisher.connect s url optLoop o
  | .publish now source o => ServerPublisher.publish s now source o
  | .stop => ServerPublisher.stop s
  | .setVideoQuality q => ServerPublisher.setVideoQuality s q
  | .setAudioEnabled b => ServerPublisher.setAudioEnabled s b
  | .setVideoEnabled b => ServerPublisher.setVideoEnabled s b

/-- Every consecutive pair along a sequence of `status` assignments is either
no change or a transition of the publisher table. -/
def chainOk (prev : PublisherStatus) : List PublisherStatus → Bool
  | [] => true
  | w :: ws => (prev = w || isValidPublisherTransition prev w) && chainOk w ws

/-- All status assignments over a whole sequence of calls respect the table. -/
def pubTraceOk (s : PublisherState) : List PubCall → Bool
  | [] => true
  | c :: cs =>
      chainOk s.status (pubStep s c).statusWrites &&
      pubTraceOk (pubStep s c).state cs

/-- External side effects of `ServerSubscriber` methods. -/
inductive SubAction
  | makeTempFile (path : String)
  | spawnFFmpeg
deriving DecidableEq, Repr

/-- The mutable fields of `ServerSubscriber`
(`src/src/server/subscriber.ts`, lines 35-55) used by `subscribe`. -/
structure SubscriberState where
  streamId : String
  status : SubscriberStatus
  url : Option String
  hasIo : Bool
  quality : Option String
  startTime : Option Nat
  ffmpegProcess : Bool
deriving DecidableEq, Repr

/-- The descriptor `subscribe` resolves with (source lines 158-164). -/
structure SubscribeDescriptor where
  streamId : String
  url : String
  outputPath : String
  protocol : StreamProtocol
deriving DecidableEq, Repr

/-- Result of one awaited `ServerSubscriber.subscribe` call. -/
structure SubResult where
  state : SubscriberState
  value : Option SubscribeDescriptor
  err : Option StreamErr
  statusWrites : List SubscriberStatus
  actions : List SubAction
deriving DecidableEq, Repr

/-- `ServerSubscriber.subscribe` (`src/src/server/subscriber.ts`, lines
101-170).  Outside `connected` it throws `SubscriberStateError(streamId,
status, "connected")` before any side effect; otherwise status goes to
`playing` and the protocol strategy runs: rtmp/flv spawn a pull-and-record
process into a fresh temp file, hls/dash return the URL, webrtc fails. -/
def ServerSubscriber.subscribe (s : SubscriberState) (now : Nat)
    (tempFileName : String) (spawnOk : Bool) : SubResult :=
  if s.status ≠ .connected then
    { state := s, value := none,
      err := some (.subscriberState s.status .connected),
      statusWrites := [], actions := [] }
  else
    match s.url with
    | none =>
        { state := s, value := none,
          err := some (.plainError "拉流 URL 未设置"),
          statusWrites := [], actions := [] }
    | some url =>
        let s1 := { s with status := .playing, startTime := some now }
        match detectRule url with
        | .rtmp | .flv =>
            if spawnOk then
              let desc : SubscribeDescriptor :=
                { streamId := s.streamId, url := url,
                  outputPath := tempFileName, protocol := detectRule url }
              { state := { s1 with ffmpegProcess := true },
                value := some desc,
                err := none, statusWrites := [.playing],
                actions := [.makeTempFile tempFileName, .spawnFFmpeg] }
            else
              { state := { s1 with status := .error }, value := none,
                err := some .externalError,
                statusWrites := [.playing, .error],
                actions := [.makeTempFile tempFileName, .spawnFFmpeg] }
        | .hls | .dash =>
            let desc : SubscribeDescriptor :=
              { streamId := s.streamId, url := url,
                outputPath := url, protocol := detectRule url }
            { state := s1, value := some desc,
              err := none, statusWrites := [.playing], actions := [] }
        | .webrtc =>
            { state := { s1 with status := .error }, value := none,
              err := some (.plainError "WebRTC 拉流需要信令服务器支持，请使用客户端拉流器"),
              statusWrites := [.playing, .error], actions := [] }

theorem mapFind_eq_some_mem {K V : Type} [DecidableEq K] {l : List (K × V)}
    {k : K} {v : V} (h : mapFind l k = some v) : (k, v) ∈ l := by
  induction l with
  | nil => simp [mapFind] at h
  | cons hd tl ih =>
      obtain ⟨k', v'⟩ := hd
      by_cases hk : k = k'
      · simp [mapFind, hk] at h
        simp [hk, h]
      · simp [mapFind, hk] at h
        exact List.mem_cons_of_mem _ (ih h)

theorem mapFind_mapSet_self {K V : Type} [DecidableEq K] (l : List (K × V))
    (k : K) (v : V) : mapFind (mapSet l k v) k = some v := by
  induction l with
  | nil => simp [mapSet, mapFind]
  | cons hd tl ih =>
      obtain ⟨k', v'⟩ := hd
      by_cases hk : k = k'
      · simp [mapSet, mapFind, hk]
      · simp [mapSet, mapFind, hk, ih]

theorem keysOf_cons {K V : Type} (a : K) (b : V) (l : List (K × V)) :
    keysOf ((a, b) :: l) = a :: keysOf l := rfl

theorem keysOf_append {K V : Type} (l1 l2 : List (K × V)) :
    keysOf (l1 ++ l2) = keysOf l1 ++ keysOf l2 := List.map_append _ _ _

theorem mapFind_eq_none_iff {K V : Type} [DecidableEq K]
    (l : List (K × V)) (k : K) : mapFind l k = none ↔ k ∉ keysOf l := by
  induction l with
  | nil => simp [mapFind, keysOf]
  | cons hd tl ih =>
      obtain ⟨k', v'⟩ := hd
      rw [keysOf_cons]
      by_cases hk : k = k'
      · simp [mapFind, hk]
      · simp [mapFind, hk, ih]

theorem mapSet_of_find_none {K V : Type} [DecidableEq K]
    {l : List (K × V)} {k : K} (v : V) (h : mapFind l k = none) :
    mapSet l k v = l ++ [(k, v)] := by
  induction l with
  | nil => simp [mapSet]
  | cons hd tl ih =>
      obtain ⟨k', v'⟩ := hd
      by_cases hk : k = k'
      · simp [mapFind, hk] at h
      · rw [mapFind] at h
        rw [if_neg hk] at h
        simp [mapSet, hk, ih h]

theorem mapDelete_cons_self {K V : Type} [DecidableEq K] (k : K) (v : V)
    (tl : List (K × V)) : mapDelete ((k, v) :: tl) k = tl := by
  simp [mapDelete]

theorem not_mem_keysOf_mapDelete {K V : Type} [DecidableEq K]
    {l : List (K × V)} {k : K} (h : (keysOf l).Nodup) :
    k ∉ keysOf (mapDelete l k) := by
  induction l with
  | nil => simp [mapDelete, keysOf]
  | cons hd tl ih =>
      obtain ⟨k', v'⟩ := hd
      rw [keysOf_cons] at h
      obtain ⟨h1, h2⟩ := List.nodup_cons.mp h
      by_cases hk : k = k'
      · subst hk
        rw [mapDelete_cons_self]
        exact h1
      · rw [show mapDelete ((k', v') :: tl) k = (k', v') :: mapDelete tl k
          from by simp [mapDelete, hk]]
        rw [keysOf_cons]
        simp only [List.mem_cons, not_or]
        exact ⟨hk, ih h2⟩

theorem length_mapDelete_of_find_some {K V : Type} [DecidableEq K]
    {l : List (K × V)} {k : K} {v : V} (h : mapFind l k = some v) :
    (mapDelete l k).length + 1 = l.length := by
  induction l with
  | nil => simp [mapFind] at h
  | cons hd tl ih =>
      obtain ⟨k', v'⟩ := hd
      by_cases hk : k = k'
      · subst hk
        rw [mapDelete_cons_self]
        simp
      · rw [mapFind] at h
        rw [if_neg hk] at h
        rw [show mapDelete ((k', v') :: tl) k = (k', v') :: mapDelete tl k
          from by simp [mapDelete, hk]]
        simp only [List.length_cons]
        have hih := ih h
        omega

/-- The source's lowercase-then-match chain agrees with the spec's literal
first-match rule evaluated on the lowercased URL. -/
theorem detectRule_eq_spec_on_lower (url : String) :
    detectRule url = specFirstMatchRule (strToLower url) := rfl

/-- C5 (amended): `detectProtocol` is deterministic and, on every cache
reachable through the module's API (characterised by `CacheWF`, which the
empty cache satisfies and which both branches preserve), equivalent to the
pure ordered first-match rule applied to the LOWERCASED url; once the
1000-entry cap is reached the cache stops changing but the result stays
equal to the rule. -/
theorem detectProtocol_matches_lowercased_rule (cache : ProtocolCache)
    (url : String) (hwf : CacheWF cache) :
    (detectProtocol cache url).1 = specFirstMatchRule (strToLower url) ∧
    CacheWF (detectProtocol cache url).2 ∧
    (1000 ≤ cache.length → (detectProtocol cache url).2 = cache) := by
  unfold detectProtocol
  cases h : mapFind cache url with
  | some p =>
      have hp : p = detectRule url := hwf _ (mapFind_eq_some_mem h)
      exact ⟨by simpa [detectRule_eq_spec_on_lower] using hp, hwf,
        fun _ => rfl⟩
  | none =>
      by_cases hlen : cache.length < 1000
      · refine ⟨by simp [hlen, detectRule_eq_spec_on_lower], ?_, ?_⟩
        · simp only [hlen, if_pos]
          intro p hp
          rcases List.mem_append.mp hp with hmem | hmem
          · exact hwf _ hmem
          · simp only [List.mem_singleton] at hmem
            subst hmem
            rfl
        · intro hge
          omega
      · exact ⟨by simp [hlen, detectRule_eq_spec_on_lower], by simp [hlen, hwf],
          fun _ => by simp [hlen]⟩

/-- C5 witness: the theorem applied to the empty (well-formed) cache. -/
theorem detectProtocol_matches_lowercased_rule_witness :
    CacheWF ([] : ProtocolCache) ∧
    (detectProtocol [] "rtmp://localhost:1935/live/s1").1 =
      specFirstMatchRule (strToLower "rtmp://localhost:1935/live/s1") :=
  ⟨by decide,
   (detectProtocol_matches_lowercased_rule [] "rtmp://localhost:1935/live/s1"
      (by decide)).1⟩

/-- C5 counterexample: the claim's rule, taken on the URL as written, differs
from `detectProtocol` on a mixed-case URL, because the source lowercases the
URL before matching: `"a.M3U8"` detects as `hls` while the literal
first-match rule yields the default `rtmp`. -/
theorem detectProtocol_case_sensitivity_counterexample :
    (detectProtocol [] "a.M3U8").1 = StreamProtocol.hls ∧
    specFirstMatchRule "a.M3U8" = StreamProtocol.rtmp ∧
    (detectProtocol [] "a.M3U8").1 ≠ specFirstMatchRule "a.M3U8" :=
  ⟨by decide, by decide, by decide⟩

/-- C1: outside `connected`, the server publisher's `publish` and the server
subscriber's `subscribe` throw the typed state error carrying the current
and the expected (`connected`) status, before any side effect: no action is
attempted and the whole session state (status, handles, tracked paths) is
returned unchanged. -/
theorem publish_subscribe_state_precondition
    (p : PublisherState) (now : Nat) (source : MediaSrc) (o : PublishOutcome)
    (s : SubscriberState) (now' : Nat) (tmp : String) (ok : Bool)
    (hp : p.status ≠ .connected) (hs : s.status ≠ .connected) :
    (ServerPublisher.publish p now source o).err =
      some (.publisherState p.status .connected) ∧
    (ServerPublisher.publish p now source o).state = p ∧
    (ServerPublisher.publish p now source o).actions = [] ∧
    (ServerPublisher.publish p now source o).statusWrites = [] ∧
    (ServerSubscriber.subscribe s now' tmp ok).err =
      some (.subscriberState s.status .connected) ∧
    (ServerSubscriber.subscribe s now' tmp ok).state = s ∧
    (ServerSubscriber.subscribe s now' tmp ok).actions = [] ∧
    (ServerSubscriber.subscribe s now' tmp ok).statusWrites = [] := by
  simp [ServerPublisher.publish, ServerSubscriber.subscribe, hp, hs]

/-- C1 witness: a freshly created publisher (status `idle`) and a concrete
subscriber in status `stopped`. -/
theorem publish_subscribe_state_precondition_witness :
    (ServerPublisher.new "s1" true).status ≠ .connected ∧
    (ServerPublisher.publish (ServerPublisher.new "s1" true) 0
        (.path "/tmp/video.mp4") ⟨"t", true, "d", true, "p", true⟩).err =
      some (.publisherState .idle .connected) ∧
    (ServerSubscriber.subscribe
        { streamId := "s1", status := .stopped, url := some "rtmp://h/a/k",
          hasIo := false, quality := none, startTime := none,
          ffmpegProcess := false } 0 "t" true).err =
      some (.subscriberState .stopped .connected) := by
  refine ⟨by decide, ?_, ?_⟩
  · exact (publish_subscribe_state_precondition
      (ServerPublisher.new "s1" true) 0 (.path "/tmp/video.mp4")
      ⟨"t", true, "d", true, "p", true⟩
      { streamId := "s1", status := .stopped, url := some "rtmp://h/a/k",
        hasIo := false, quality := none, startTime := none,
        ffmpegProcess := false } 0 "t" true
      (by decide) (by decide)).1
  · exact (publish_subscribe_state_precondition
      (ServerPublisher.new "s1" true) 0 (.path "/tmp/video.mp4")
      ⟨"t", true, "d", true, "p", true⟩
      { streamId := "s1", status := .stopped, url := some "rtmp://h/a/k",
        hasIo := false, quality := none, startTime := none,
        ffmpegProcess := false } 0 "t" true
      (by decide) (by decide)).2.2.2.2.1

/-- C4 (amended): `connect` on a non-`idle` publisher throws before any side
effect a bare `Error` whose message names only the current state — not a
`PublisherStateError`, and without the required state `idle`. -/
theorem connect_requires_idle_plain_error (p : PublisherState) (url : String)
    (lo : Option Bool) (o : ConnectOutcome) (h : p.status ≠ .idle) :
    (ServerPublisher.connect p url lo o).err =
      some (.plainError ("推流器状态错误，当前状态: " ++ p.status.jsName)) ∧
    (ServerPublisher.connect p url lo o).state = p ∧
    (ServerPublisher.connect p url lo o).actions = [] ∧
    (ServerPublisher.connect p url lo o).statusWrites = [] := by
  simp [ServerPublisher.connect, h]

/-- C4 witness: a concrete publisher in status `connected`. -/
theorem connect_requires_idle_plain_error_witness :
    ({ ServerPublisher.new "s1" true with
       status := .connected } : PublisherState).status ≠ .idle ∧
    (ServerPublisher.connect
        { ServerPublisher.new "s1" true with status := .connected }
        "rtmp://h/a/k" none .success).err =
      some (.plainError "推流器状态错误，当前状态: connected") :=
  ⟨by decide,
   (connect_requires_idle_plain_error
      { ServerPublisher.new "s1" true with status := .connected }
      "rtmp://h/a/k" none .success (by decide)).1⟩

/-- C4 counterexample: on a publisher in status `connected`, `connect` throws
a bare `Error` (message naming only the current state), which is not a
`PublisherStateError` for any pair of states — the claim's typed error with
current and required state is not what the code throws. -/
theorem connect_not_publisher_state_error :
    (ServerPublisher.connect
        { ServerPublisher.new "s1" true with status := .connected }
        "rtmp://h/a/k" none .success).err =
      some (.plainError "推流器状态错误，当前状态: connected") ∧
    (∀ c e : PublisherStatus,
      (ServerPublisher.connect
          { ServerPublisher.new "s1" true with status := .connected }
          "rtmp://h/a/k" none .success).err ≠
        some (.publisherState c e)) := by
  refine ⟨by decide, fun c e hne => ?_⟩
  rw [show (ServerPublisher.connect
      { ServerPublisher.new "s1" true with status := .connected }
      "rtmp://h/a/k" none .success).err =
      some (.plainError "推流器状态错误，当前状态: connected") from by decide] at hne
  exact StreamErr.noConfusion (Option.some.inj hne)

/-- C3: the publisher's `stop` never throws, and a second `stop` is a
no-op — it returns the same state, attempts no cleanup action (so no
resource is ever removed twice) and writes no status; after a first `stop`
from any active state the status is `stopped` and every tracked resource
field (signaling server, HLS process and temp dir, FFmpeg process, temp
file) is cleared. -/
theorem stop_idempotent (s : PublisherState) :
    (ServerPublisher.stop s).err = none ∧
    (ServerPublisher.stop (ServerPublisher.stop s).state).err = none ∧
    (ServerPublisher.stop (ServerPublisher.stop s).state).state =
      (ServerPublisher.stop s).state ∧
    (ServerPublisher.stop (ServerPublisher.stop s).state).actions = [] ∧
    (ServerPublisher.stop (ServerPublisher.stop s).state).statusWrites = [] ∧
    (s.status ≠ .idle ∧ s.status ≠ .stopped →
      (ServerPublisher.stop s).state.status = .stopped ∧
      (ServerPublisher.stop s).state.hasIo = false ∧
      (ServerPublisher.stop s).state.hlsProcess = false ∧
      (ServerPublisher.stop s).state.hlsTempDir = none ∧
      (ServerPublisher.stop s).state.ffmpegProcess = false ∧
      (ServerPublisher.stop s).state.tempFilePath = none) := by
  by_cases h : s.status = .idle ∨ s.status = .stopped
  · refine ⟨?_, ?_, ?_, ?_, ?_, fun hc => absurd h (by tauto)⟩ <;>
      simp [ServerPublisher.stop, h]
  · have herr : (ServerPublisher.stop s).err = none := by
      simp [ServerPublisher.stop, h]
    have h1 : (ServerPublisher.stop s).state.status = .stopped ∧
        (ServerPublisher.stop s).state.hasIo = false ∧
        (ServerPublisher.stop s).state.hlsProcess = false ∧
        (ServerPublisher.stop s).state.hlsTempDir = none ∧
        (ServerPublisher.stop s).state.ffmpegProcess = false ∧
        (ServerPublisher.stop s).state.tempFilePath = none := by
      simp [ServerPublisher.stop, h]
    obtain ⟨t, ht⟩ : ∃ t, (ServerPublisher.stop s).state = t := ⟨_, rfl⟩
    rw [ht] at h1 ⊢
    have h2 : ServerPublisher.stop t =
        { state := t, err := none, statusWrites := [], actions := [] } := by
      simp [ServerPublisher.stop, h1.1]
    rw [h2]
    exact ⟨herr, rfl, rfl, rfl, rfl, fun _ => h1⟩

/-- C3 witness: a concrete publisher in `publishing` status holding every
kind of resource. -/
theorem stop_idempotent_witness :
    (ServerPublisher.stop (ServerPublisher.stop
        { streamId := "s1", status := .publishing,
          url := some "rtmp://h/a/k", hasIo := true, quality := none,
          audioEnabled := true, videoEnabled := true, loop := none,
          startTime := some 5, ffmpegProcess := true,
          tempFilePath := some "/tmp/stream-x.mp4",
          hlsPlaylistPath := some "/tmp/hls/playlist.m3u8",
          hlsTempDir := some "/tmp/hls", hlsProcess := true,
          listeners := ["error"] }).state).actions = [] ∧
    (ServerPublisher.stop
        { streamId := "s1", status := .publishing,
          url := some "rtmp://h/a/k", hasIo := true, quality := none,
          audioEnabled := true, videoEnabled := true, loop := none,
          startTime := some 5, ffmpegProcess := true,
          tempFilePath := some "/tmp/stream-x.mp4",
          hlsPlaylistPath := some "/tmp/hls/playlist.m3u8",
          hlsTempDir := some "/tmp/hls", hlsProcess := true,
          listeners := ["error"] }).state.status = .stopped := by
  constructor
  · exact (stop_idempotent
      { streamId := "s1", status := .publishing,
        url := some "rtmp://h/a/k", hasIo := true, quality := none,
        audioEnabled := true, videoEnabled := true, loop := none,
        startTime := some 5, ffmpegProcess := true,
        tempFilePath := some "/tmp/stream-x.mp4",
        hlsPlaylistPath := some "/tmp/hls/playlist.m3u8",
        hlsTempDir := some "/tmp/hls", hlsProcess := true,
        listeners := ["error"] }).2.2.2.1
  · exact ((stop_idempotent
      { streamId := "s1", status := .publishing,
        url := some "rtmp://h/a/k", hasIo := true, quality := none,
        audioEnabled := true, videoEnabled := true, loop := none,
        startTime := some 5, ffmpegProcess := true,
        tempFilePath := some "/tmp/stream-x.mp4",
        hlsPlaylistPath := some "/tmp/hls/playlist.m3u8",
        hlsTempDir := some "/tmp/hls", hlsProcess := true,
        listeners := ["error"] }).2.2.2.2.2 (by decide)).1

/-- Protocol dispatch inside `publish` either succeeds leaving the single
`publishing` status write, or fails writing `publishing` then `error`. -/
theorem publishDispatch_spec (s1 : PublisherState) (url : String)
    (o : PublishOutcome) (acts : List PubAction) :
    ((publishDispatch s1 url o acts).statusWrites = [.publishing] ∧
     (publishDispatch s1 url o acts).state.status = s1.status) ∨
    ((publishDispatch s1 url o acts).statusWrites = [.publishing, .error] ∧
     (publishDispatch s1 url o acts).state.status = .error) := by
  unfold publishDispatch publishFail
  cases detectRule url <;> split_ifs <;> simp

/-- From `idle`, `connect` writes `connecting` then either `connected` or
`error`. -/
theorem connect_writes (s : PublisherState) (url : String) (lo : Option Bool)
    (o : ConnectOutcome) (hs : s.status = .idle) :
    ((ServerPublisher.connect s url lo o).statusWrites =
        [.connecting, .connected] ∧
     (ServerPublisher.connect s url lo o).state.status = .connected) ∨
    ((ServerPublisher.connect s url lo o).statusWrites =
        [.connecting, .error] ∧
     (ServerPublisher.connect s url lo o).state.status = .error) := by
  unfold ServerPublisher.connect
  rw [if_neg (by simp [hs])]
  cases o
  · exact Or.inl ⟨rfl, rfl⟩
  · exact Or.inr ⟨rfl, rfl⟩
  · exact Or.inr ⟨rfl, rfl⟩

/-- From `connected` with a stored url, `publish` writes `publishing` and
either stays there or additionally writes `error`. -/
theorem publish_writes (s : PublisherState) (now : Nat) (source : MediaSrc)
    (o : PublishOutcome) (url : String) (hs : s.status = .connected)
    (hu : s.url = some url) :
    ((ServerPublisher.publish s now source o).statusWrites = [.publishing] ∧
     (ServerPublisher.publish s now source o).state.status = .publishing) ∨
    ((ServerPublisher.publish s now source o).statusWrites =
        [.publishing, .error] ∧
     (ServerPublisher.publish s now source o).state.status = .error) := by
  unfold ServerPublisher.publish
  rw [if_neg (by simp [hs]), hu]
  cases source with
  | mediaStream => exact Or.inr ⟨rfl, rfl⟩
  | path p =>
      rcases publishDispatch_spec
        { s with status := .publishing, url := some url,
                 startTime := some now } url o []
        with ⟨h1, h2⟩ | ⟨h1, h2⟩
      · exact Or.inl ⟨h1, h2⟩
      · exact Or.inr ⟨h1, h2⟩
  | blob ext =>
      by_cases hw : o.tempWriteOk = true
      · simp only [hw]
        rcases publishDispatch_spec
          { s with status := .publishing, url := some url,
                   startTime := some now,
                   tempFilePath := some o.tempFileName } url o
          [.makeTempFile o.tempFileName, .writeTempFile o.tempFileName]
          with ⟨h1, h2⟩ | ⟨h1, h2⟩
        · exact Or.inl ⟨h1, h2⟩
        · exact Or.inr ⟨h1, h2⟩
      · simp only [Bool.not_eq_true] at hw
        simp only [hw]
        exact Or.inr ⟨rfl, rfl⟩

/-- Each awaited public method call writes only table transitions, and never
returns with status `connecting`. -/
theorem pubStep_chainOk (s : PublisherState) (c : PubCall)
    (h : s.status ≠ .connecting) :
    chainOk s.status (pubStep s c).statusWrites = true ∧
    (pubStep s c).state.status ≠ .connecting := by
  cases c with
  | connect url lo o =>
      show chainOk s.status (ServerPublisher.connect s url lo o).statusWrites
          = true ∧
        (ServerPublisher.connect s url lo o).state.status ≠ .connecting
      by_cases hs : s.status = .idle
      · rcases connect_writes s url lo o hs with ⟨h1, h2⟩ | ⟨h1, h2⟩ <;>
          rw [h1, h2, hs] <;> exact ⟨by decide, by decide⟩
      · unfold ServerPublisher.connect
        rw [if_pos hs]
        exact ⟨rfl, h⟩
  | publish now source o =>
      show chainOk s.status
          (ServerPublisher.publish s now source o).statusWrites = true ∧
        (ServerPublisher.publish s now source o).state.status ≠ .connecting
      by_cases hs : s.status = .connected
      · rcases hu : s.url with _ | url
        · unfold ServerPublisher.publish
          rw [if_neg (by simp [hs]), hu]
          exact ⟨rfl, h⟩
        · rcases publish_writes s now source o url hs hu
            with ⟨h1, h2⟩ | ⟨h1, h2⟩ <;>
            rw [h1, h2, hs] <;> exact ⟨by decide, by decide⟩
      · unfold ServerPublisher.publish
        rw [if_pos hs]
        exact ⟨rfl, h⟩
  | stop =>
      show chainOk s.status (ServerPublisher.stop s).statusWrites = true ∧
        (ServerPublisher.stop s).state.status ≠ .connecting
      unfold ServerPublisher.stop
      by_cases hs : s.status = .idle ∨ s.status = .stopped
      · rw [if_pos hs]
        exact ⟨rfl, h⟩
      · rw [if_neg hs]
        refine ⟨show chainOk s.status [.stopped] = true from ?_,
          show (PublisherStatus.stopped) ≠ .connecting by decide⟩
        cases hst : s.status
        · exact absurd (Or.inl rfl) (hst ▸ hs)
        · exact absurd hst h
        · decide
        · decide
        · exact absurd (Or.inr rfl) (hst ▸ hs)
        · decide
  | setVideoQuality q => exact ⟨rfl, h⟩
  | setAudioEnabled b => exact ⟨rfl, h⟩
  | setVideoEnabled b => exact ⟨rfl, h⟩

/-- Any call sequence from a non-`connecting` state only writes table
transitions. -/
theorem pubTraceOk_of_ne_connecting :
    ∀ (calls : List PubCall) (s : PublisherState),
      s.status ≠ .connecting → pubTraceOk s calls = true
  | [], _, _ => rfl
  | c :: cs, s, h => by
      have hc := pubStep_chainOk s c h
      simp [pubTraceOk, hc.1,
        pubTraceOk_of_ne_connecting cs (pubStep s c).state hc.2]

/-- C2: over every sequence of sequential awaited calls to the public
publisher methods, starting from a fresh `ServerPublisher`, every assignment
to `status` that changes it is an edge of `PUBLISHER_STATUS_TRANSITIONS`. -/
theorem publisher_status_respects_transition_table (sid : String)
    (hio : Bool) (q : Option Nat) (a v : Bool) (l : Option Bool)
    (calls : List PubCall) :
    pubTraceOk (ServerPublisher.new sid hio q a v l) calls = true :=
  pubTraceOk_of_ne_connecting calls _ (by simp [ServerPublisher.new])

/-- With finite `maxAttempts = m` and every `connectFn` call failing, a run
started at counter `a ≤ m` awaits the backoff delays for counters
`a, a+1, …, m-1`, calls `connectFn` exactly `m - a` times, then invokes the
failure callback once and throws the terminal error. -/
theorem reconnectRun_allFail (cfg : ReconnectConfig) (m : Nat)
    (hm : cfg.maxAttempts = some m) :
    ∀ (n a : Nat), a ≤ m → m ≤ a + n →
      reconnectRun cfg (List.replicate n false) a =
        { delays := (List.range' a (m - a)).map (reconnectDelay cfg),
          calls := m - a, onFailedCalls := 1, outcome := .terminalError,
          finalAttempts := m } := by
  intro n
  induction n with
  | zero =>
      intro a ha hn
      have hae : a = m := le_antisymm ha (by omega)
      subst hae
      have hmax : cfg.atMax a = true := by
        simp [ReconnectConfig.atMax, hm]
      simp [reconnectRun, hmax]
  | succ n ih =>
      intro a ha hn
      by_cases hae : m ≤ a
      · have hae' : a = m := le_antisymm ha hae
        subst hae'
        have hmax : cfg.atMax a = true := by
          simp [ReconnectConfig.atMax, hm]
        simp [reconnectRun, hmax]
      · have hlt : a < m := lt_of_not_le hae
        have hmax : cfg.atMax a = false := by
          simp [ReconnectConfig.atMax, hm]
          omega
        have hrec := ih (a + 1) (by omega) (by omega)
        rw [List.replicate_succ]
        rw [reconnectRun]
        rw [hmax]
        simp only [Bool.false_eq_true, if_false, if_neg]
        rw [hrec]
        have hj : m - a = (m - (a + 1)) + 1 := by omega
        show ({ delays := reconnectDelay cfg a ::
                  (List.range' (a + 1) (m - (a + 1))).map (reconnectDelay cfg),
                calls := (m - (a + 1)) + 1, onFailedCalls := 1,
                outcome := .terminalError, finalAttempts := m } :
              ReconnectRun) = _
        rw [hj, List.range'_succ, List.map_cons]

/-- C7: with `backoffMultiplier ≥ 1` (and nonnegative `initialDelay`), the
delay before attempt `k` is `min(initialDelay · multiplier^k, maxDelay)`, so
the delays are non-decreasing and capped by `maxDelay`; after `maxAttempts`
consecutive failures the driver invokes the failure callback once, throws
the terminal error, and `connectFn` has been called exactly `maxAttempts`
times even though more failures were scripted. -/
theorem reconnect_backoff_and_terminal (cfg : ReconnectConfig) (m n : Nat)
    (hm : cfg.maxAttempts = some m) (hmul : 1 ≤ cfg.backoffMultiplier)
    (hinit : 0 ≤ cfg.initialDelay) (hn : m ≤ n) :
    (reconnectRun cfg (List.replicate n false) 0).delays =
      (List.range m).map (reconnectDelay cfg) ∧
    (reconnectRun cfg (List.replicate n false) 0).calls = m ∧
    (reconnectRun cfg (List.replicate n false) 0).onFailedCalls = 1 ∧
    (reconnectRun cfg (List.replicate n false) 0).outcome = .terminalError ∧
    (∀ j k : Nat, j ≤ k → reconnectDelay cfg j ≤ reconnectDelay cfg k) ∧
    (∀ k : Nat, reconnectDelay cfg k ≤ cfg.maxDelay) := by
  have hrun := reconnectRun_allFail cfg m hm n 0 (Nat.zero_le m) (by omega)
  rw [hrun]
  refine ⟨?_, rfl, rfl, rfl, ?_, fun k => min_le_right _ _⟩
  · simp [List.range_eq_range']
  · intro j k hjk
    unfold reconnectDelay
    refine min_le_min ?_ le_rfl
    exact mul_le_mul_of_nonneg_left (pow_le_pow_right₀ hmul hjk) hinit

/-- C7 witness: `initialDelay=100, multiplier=2, maxDelay=1000, maxAttempts=3`
with 5 scripted failures: delays 100, 200, 400; exactly 3 calls; one failure
callback; terminal error. -/
theorem reconnect_backoff_and_terminal_witness :
    (reconnectRun ⟨some 3, 100, 1000, 2⟩ (List.replicate 5 false) 0).delays =
      [100, 200, 400] ∧
    (reconnectRun ⟨some 3, 100, 1000, 2⟩ (List.replicate 5 false) 0).calls
      = 3 ∧
    (reconnectRun ⟨some 3, 100, 1000, 2⟩
        (List.replicate 5 false) 0).outcome = .terminalError := by
  have h := reconnect_backoff_and_terminal ⟨some 3, 100, 1000, 2⟩ 3 5 rfl
    (by norm_num) (by norm_num) (by norm_num)
  refine ⟨?_, h.2.1, h.2.2.2.1⟩
  rw [h.1]
  norm_num [reconnectDelay, List.range_succ]

/-- C9 (amended): `releaseConnection(url, false)` keeps the entry in the
pool, marked inactive (eligible only for the idle sweep, not for reuse): a
subsequent `getConnection` for the same origin key does NOT return the old
connection — under capacity it invokes the factory again and returns and
registers the new connection; `releaseConnection(url, true)` closes the
connection and removes its entry immediately. -/
theorem pool_release_then_get_recreates (keyOf : String → String)
    (p : ConnectionPool) (url : String) (now : Nat) (c2 : Nat) (e : ConnInfo)
    (hfind : mapFind p.connections (keyOf url) = some e) :
    mapFind ((releaseConnection keyOf p url false).1).connections (keyOf url)
      = some { e with isActive := false } ∧
    (releaseConnection keyOf p url false).2 = false ∧
    (((releaseConnection keyOf p url false).1).connections.length <
        p.maxConnections →
      (getConnection keyOf (releaseConnection keyOf p url false).1 url now
          (some c2)).factoryInvoked = true ∧
      (getConnection keyOf (releaseConnection keyOf p url false).1 url now
          (some c2)).result = .ok c2) ∧
    ((releaseConnection keyOf p url true).1).connections =
      mapDelete p.connections (keyOf url) ∧
    (releaseConnection keyOf p url true).2 = true := by
  have hrel : releaseConnection keyOf p url false = ({ p with connections := mapSet p.connections (keyOf url) { e with isActive := false } }, false) := by
    simp [releaseConnection, hfind]
  have hrelT : releaseConnection keyOf p url true = ({ p with connections := mapDelete p.connections (keyOf url) }, true) := by
    simp [releaseConnection, hfind]
  rw [hrel, hrelT]
  refine ⟨mapFind_mapSet_self _ _ _, rfl, ?_, rfl, rfl⟩
  intro hcap
  simp only at hcap
  have hfind1 : mapFind (mapSet p.connections (keyOf url) { e with isActive := false }) (keyOf url) = some { e with isActive := false } := mapFind_mapSet_self _ _ _
  have hget : getConnection keyOf { p with connections := mapSet p.connections (keyOf url) { e with isActive := false } } url now (some c2) = getConnectionCreate { p with connections := mapSet p.connections (keyOf url) { e with isActive := false } } (keyOf url) url now (some c2) := by
    simp [getConnection, hfind1]
  rw [hget]
  unfold getConnectionCreate
  rw [if_neg (not_le.mpr hcap)]
  rw [if_neg (not_le.mpr hcap)]
  exact ⟨rfl, rfl⟩

/-- C9 witness: a concrete pool with one active entry for the key. -/
theorem pool_release_then_get_recreates_witness :
    (getConnection id (releaseConnection id { connections := [("h", { id := "h", url := "h", connection := 1, createdAt := 0, lastUsed := 0, isActive := true })], maxConnections := 10, idleTimeout := 60000 } "h" false).1 "h" 1 (some 2)).factoryInvoked = true := by
  have h := pool_release_then_get_recreates id { connections := [("h", { id := "h", url := "h", connection := 1, createdAt := 0, lastUsed := 0, isActive := true })], maxConnections := 10, idleTimeout := 60000 } "h" 1 2 { id := "h", url := "h", connection := 1, createdAt := 0, lastUsed := 0, isActive := true } (by decide)
  exact (h.2.2.1 (by decide)).1

/-- C9 counterexample: create, release without closing, get again — the
factory IS invoked and the new (different) connection is returned, refuting
the claim that the previously created connection is returned without
invoking the factory. -/
theorem pool_inactive_reuse_counterexample :
    (getConnection id { connections := [], maxConnections := 10, idleTimeout := 60000 } "h" 0 (some 1)).result = .ok 1 ∧
    (getConnection id (releaseConnection id (getConnection id { connections := [], maxConnections := 10, idleTimeout := 60000 } "h" 0 (some 1)).pool "h" false).1 "h" 1 (some 2)).factoryInvoked = true ∧
    (getConnection id (releaseConnection id (getConnection id { connections := [], maxConnections := 10, idleTimeout := 60000 } "h" 0 (some 1)).pool "h" false).1 "h" 1 (some 2)).result = .ok 2 :=
  ⟨rfl, rfl, rfl⟩

/-- `set` of a fresh key below capacity appends at the MRU end. -/
theorem lru_set_fresh_room {K V : Type} [DecidableEq K]
    (cache : List (K × CacheItem V)) (mz : Nat) (ttl : Option Nat)
    (now : Nat) (k : K) (v : V) (hfresh : mapFind cache k = none)
    (hlt : cache.length < mz) :
    LRUCache.set ⟨cache, mz, ttl⟩ now k v =
      ⟨cache ++ [(k, ⟨v, now, 1⟩)], mz, ttl⟩ := by
  simp [LRUCache.set, hfresh, not_le.mpr hlt, mapSet_of_find_none _ hfresh]

/-- `set` of a fresh key at capacity evicts exactly the structurally first
(least recently used) entry and appends the new one at the MRU end. -/
theorem lru_set_fresh_full {K V : Type} [DecidableEq K]
    (cache : List (K × CacheItem V)) (mz : Nat) (ttl : Option Nat)
    (now : Nat) (k : K) (v : V) (hfresh : mapFind cache k = none)
    (hlen : cache.length = mz) (hmz : 1 ≤ mz) :
    LRUCache.set ⟨cache, mz, ttl⟩ now k v =
      ⟨cache.tail ++ [(k, ⟨v, now, 1⟩)], mz, ttl⟩ := by
  rcases cache with _ | ⟨⟨k0, i0⟩, t⟩
  · simp at hlen
    omega
  · have hk : k ≠ k0 := by
      intro he
      rw [he] at hfresh
      simp [mapFind] at hfresh
    have hft : mapFind t k = none := by
      rw [mapFind, if_neg hk] at hfresh
      exact hfresh
    have hle : mz ≤ t.length + 1 := by
      simp at hlen
      omega
    simp [LRUCache.set, hfresh, hle, keysOf_cons, mapDelete_cons_self,
      mapSet_of_find_none _ hft]

/-- `set` of a resident key: update value/timestamp, bump the access count,
move to the MRU end. -/
theorem lru_set_update {K V : Type} [DecidableEq K]
    (cache : List (K × CacheItem V)) (mz : Nat) (ttl : Option Nat)
    (now : Nat) (k : K) (v : V) (item : CacheItem V)
    (hfind : mapFind cache k = some item) :
    LRUCache.set ⟨cache, mz, ttl⟩ now k v =
      ⟨mapSet (mapDelete cache k) k ⟨v, now, item.accessCount + 1⟩,
        mz, ttl⟩ := by
  simp [LRUCache.set, hfind]

/-- `get` of a resident non-expired key: return the value, bump the access
count, move to the MRU end. -/
theorem lru_get_hit {K V : Type} [DecidableEq K]
    (cache : List (K × CacheItem V)) (mz : Nat) (ttl : Option Nat)
    (now : Nat) (k : K) (item : CacheItem V)
    (hfind : mapFind cache k = some item)
    (hexp : ttlExpired ttl now item.timestamp = false) :
    LRUCache.get ⟨cache, mz, ttl⟩ now k =
      (some item.value,
       ⟨mapSet (mapDelete cache k) k { item with accessCount := item.accessCount + 1 }, mz, ttl⟩) := by
  simp [LRUCache.get, hfind, hexp]

/-- Inserting pairwise-fresh distinct keys while under capacity appends them
in order. -/
theorem setAll_fresh {K V : Type} [DecidableEq K] (now : Nat) :
    ∀ (kvs : List (K × V)) (cache : List (K × CacheItem V)) (mz : Nat)
      (ttl : Option Nat),
      (∀ kv ∈ kvs, mapFind cache kv.1 = none) →
      (kvs.map Prod.fst).Nodup →
      cache.length + kvs.length ≤ mz →
      LRUCache.setAll ⟨cache, mz, ttl⟩ now kvs =
        ⟨cache ++ kvs.map (fun kv => (kv.1, ⟨kv.2, now, 1⟩)), mz, ttl⟩
  | [], cache, mz, ttl, _, _, _ => by simp [LRUCache.setAll]
  | (k1, v1) :: rest, cache, mz, ttl, hfresh, hnd, hlen => by
      have hf1 : mapFind cache k1 = none := hfresh (k1, v1) (by simp)
      have hstep : LRUCache.setAll ⟨cache, mz, ttl⟩ now ((k1, v1) :: rest) =
          LRUCache.setAll (LRUCache.set ⟨cache, mz, ttl⟩ now k1 v1) now
            rest := rfl
      rw [hstep,
        lru_set_fresh_room cache mz ttl now k1 v1 hf1 (by simp at hlen; omega)]
      have hnd2 : k1 ∉ rest.map Prod.fst ∧ (rest.map Prod.fst).Nodup := by
        rw [List.map_cons] at hnd
        exact List.nodup_cons.mp hnd
      obtain ⟨hk1, hndr⟩ := hnd2
      have hfr : ∀ kv ∈ rest,
          mapFind (cache ++ [(k1, (⟨v1, now, 1⟩ : CacheItem V))]) kv.1
            = none := by
        intro kv hkv
        rw [mapFind_eq_none_iff, keysOf_append, keysOf_cons]
        simp only [List.mem_append, not_or]
        refine ⟨(mapFind_eq_none_iff _ _).mp
          (hfresh kv (List.mem_cons_of_mem _ hkv)), ?_⟩
        have : kv.1 ∈ rest.map Prod.fst := List.mem_map_of_mem _ hkv
        simp only [keysOf, List.map_nil, List.mem_cons, List.not_mem_nil,
          or_false, List.mem_singleton]
        intro he
        exact hk1 (he ▸ this)
      rw [setAll_fresh now rest (cache ++ [(k1, (⟨v1, now, 1⟩ : CacheItem V))])
        mz ttl hfr hndr (by simp at hlen ⊢; omega)]
      simp

/-- C6: (A) `set` of a fresh key at capacity `maxSize ≥ 1` evicts exactly
the structurally first (least recently used) entry, leaving the other keys
and placing the new key at MRU; (B) `get` on a resident non-expired key
returns its value and moves it to the MRU (last) position, so with at least
two entries the next eviction victim (the first key) is a different key;
(C) `set` on a resident key updates the value and reorders to MRU without
changing the number of entries; (D) inserting `maxSize + 1` distinct keys
into an empty cache evicts exactly one entry, the oldest, keeping the other
`maxSize` keys. -/
theorem lru_cache_spec {K V : Type} [DecidableEq K]
    (cache : List (K × CacheItem V)) (mz : Nat) (ttl : Option Nat)
    (now : Nat) (k : K) (v : V) (kvs : List (K × V)) :
    (mapFind cache k = none → cache.length = mz → 1 ≤ mz →
      keysOf (LRUCache.set ⟨cache, mz, ttl⟩ now k v).cache =
        (keysOf cache).tail ++ [k] ∧
      (LRUCache.set ⟨cache, mz, ttl⟩ now k v).cache.length = mz) ∧
    (∀ item : CacheItem V, mapFind cache k = some item →
      ttlExpired ttl now item.timestamp = false → (keysOf cache).Nodup →
      (LRUCache.get ⟨cache, mz, ttl⟩ now k).1 = some item.value ∧
      keysOf (LRUCache.get ⟨cache, mz, ttl⟩ now k).2.cache =
        keysOf (mapDelete cache k) ++ [k] ∧
      (2 ≤ cache.length → ∀ k0,
        (keysOf (LRUCache.get ⟨cache, mz, ttl⟩ now k).2.cache).head? =
          some k0 → k0 ≠ k)) ∧
    (∀ item : CacheItem V, mapFind cache k = some item →
      (keysOf cache).Nodup →
      mapFind (LRUCache.set ⟨cache, mz, ttl⟩ now k v).cache k =
        some ⟨v, now, item.accessCount + 1⟩ ∧
      keysOf (LRUCache.set ⟨cache, mz, ttl⟩ now k v).cache =
        keysOf (mapDelete cache k) ++ [k] ∧
      (LRUCache.set ⟨cache, mz, ttl⟩ now k v).cache.length = cache.length) ∧
    ((kvs.map Prod.fst).Nodup → kvs.length = mz + 1 → 1 ≤ mz →
      keysOf (LRUCache.setAll ⟨[], mz, ttl⟩ now kvs).cache =
        (kvs.map Prod.fst).tail ∧
      (LRUCache.setAll ⟨[], mz, ttl⟩ now kvs).cache.length = mz) := by
  refine ⟨fun hfresh hlen hmz => ?_, fun item hfind hexp hnd => ?_,
    fun item hfind hnd => ?_, fun hnd hlen hmz => ?_⟩
  · rw [lru_set_fresh_full cache mz ttl now k v hfresh hlen hmz]
    constructor
    · simp only [keysOf, List.map_append, List.map_tail]
      rfl
    · rcases cache with _ | ⟨hd, t⟩
      · simp at hlen
        omega
      · simp at hlen ⊢
        omega
  · rw [lru_get_hit cache mz ttl now k item hfind hexp]
    have hdelnone : mapFind (mapDelete cache k) k = none :=
      (mapFind_eq_none_iff _ _).mpr (not_mem_keysOf_mapDelete hnd)
    rw [mapSet_of_find_none _ hdelnone]
    refine ⟨rfl, by rw [keysOf_append]; rfl, ?_⟩
    intro h2 k0 hk0
    have hlen1 : 1 ≤ (mapDelete cache k).length := by
      have := length_mapDelete_of_find_some hfind
      omega
    rcases hdel : mapDelete cache k with _ | ⟨⟨ka, ia⟩, t⟩
    · rw [hdel] at hlen1
      simp at hlen1
    · have hmem : ka ∈ keysOf (mapDelete cache k) := by
        rw [hdel, keysOf_cons]
        simp
      rw [hdel, keysOf_append, keysOf_cons] at hk0
      simp only [List.cons_append, List.head?_cons, Option.some.injEq] at hk0
      intro he
      rw [he] at hk0
      exact not_mem_keysOf_mapDelete hnd (hk0 ▸ hmem)
  · rw [lru_set_update cache mz ttl now k v item hfind]
    have hdelnone : mapFind (mapDelete cache k) k = none :=
      (mapFind_eq_none_iff _ _).mpr (not_mem_keysOf_mapDelete hnd)
    refine ⟨mapFind_mapSet_self _ _ _, ?_, ?_⟩
    · rw [mapSet_of_find_none _ hdelnone, keysOf_append]
      rfl
    · rw [mapSet_of_find_none _ hdelnone]
      have := length_mapDelete_of_find_some hfind
      simp only [List.length_append, List.length_singleton]
      omega
  · rcases List.eq_nil_or_concat kvs with rfl | ⟨ks, kl, rfl⟩
    · simp at hlen
    · rw [List.concat_eq_append] at hnd hlen ⊢
      have hkslen : ks.length = mz := by
        simp at hlen
        omega
      have hndparts : (ks.map Prod.fst).Nodup ∧ kl.1 ∉ ks.map Prod.fst := by
        rw [List.map_append] at hnd
        obtain ⟨h1, _, h3⟩ := List.nodup_append.mp hnd
        refine ⟨h1, fun hmem => ?_⟩
        exact h3 hmem (by simp)
      have hsplit : LRUCache.setAll (⟨[], mz, ttl⟩ : LRUCache K V) now
          (ks ++ [kl]) =
          LRUCache.set (LRUCache.setAll ⟨[], mz, ttl⟩ now ks) now
            kl.1 kl.2 := by
        simp [LRUCache.setAll, List.foldl_append]
      rw [hsplit, setAll_fresh now ks [] mz ttl (fun kv _ => rfl) hndparts.1
        (by simp [hkslen])]
      simp only [List.nil_append]
      have hfreshlast : mapFind
          (ks.map (fun kv => (kv.1, (⟨kv.2, now, 1⟩ : CacheItem V)))) kl.1 =
          none := by
        rw [mapFind_eq_none_iff]
        have hkeys : keysOf
            (ks.map (fun kv => (kv.1, (⟨kv.2, now, 1⟩ : CacheItem V)))) =
            ks.map Prod.fst := by
          simp [keysOf, List.map_map]
        rw [hkeys]
        exact hndparts.2
      rw [lru_set_fresh_full _ mz ttl now kl.1 kl.2 hfreshlast
        (by simp [hkslen]) hmz]
      have hkeys2 : ∀ l : List (K × V), keysOf
          (l.map (fun kv => (kv.1, (⟨kv.2, now, 1⟩ : CacheItem V)))) =
          l.map Prod.fst := by
        intro l
        simp [keysOf, List.map_map]
      rcases ks with _ | ⟨khd, ktl⟩
      · simp at hkslen
        omega
      · constructor
        · rw [keysOf_append]
          simp only [List.map_cons, List.tail_cons, List.map_append]
          rw [hkeys2 ktl]
          rfl
        · simp at hkslen ⊢
          omega

/-- C6 witness: capacity-2 cache `[1 ↦ 10, 2 ↦ 20]`: a fresh `set 3` evicts
key 1; `get 1` moves key 1 to MRU so key 2 becomes the victim; `set 2`
updates in place; and three distinct inserts into an empty capacity-2 cache
keep exactly the last two keys. -/
theorem lru_cache_spec_witness :
    keysOf (LRUCache.set (⟨[(1, ⟨10, 0, 1⟩), (2, ⟨20, 0, 1⟩)], 2, none⟩ :
      LRUCache Nat Nat) 5 3 30).cache = [2, 3] ∧
    (LRUCache.get (⟨[(1, ⟨10, 0, 1⟩), (2, ⟨20, 0, 1⟩)], 2, none⟩ :
      LRUCache Nat Nat) 5 1).1 = some 10 ∧
    keysOf (LRUCache.get (⟨[(1, ⟨10, 0, 1⟩), (2, ⟨20, 0, 1⟩)], 2, none⟩ :
      LRUCache Nat Nat) 5 1).2.cache = [2, 1] ∧
    mapFind (LRUCache.set (⟨[(1, ⟨10, 0, 1⟩), (2, ⟨20, 0, 1⟩)], 2, none⟩ :
      LRUCache Nat Nat) 5 2 25).cache 2 = some ⟨25, 5, 2⟩ ∧
    keysOf (LRUCache.setAll (⟨[], 2, none⟩ : LRUCache Nat Nat) 5
      [(1, 10), (2, 20), (3, 30)]).cache = [2, 3] := by
  have hA := (lru_cache_spec [(1, ⟨10, 0, 1⟩), (2, ⟨20, 0, 1⟩)] 2 none 5 3 30
    [(1, 10), (2, 20), (3, 30)]).1 (by decide) (by decide) (by decide)
  have hB := (lru_cache_spec [(1, ⟨10, 0, 1⟩), (2, ⟨20, 0, 1⟩)] 2 none 5 1 30
    [(1, 10), (2, 20), (3, 30)]).2.1 ⟨10, 0, 1⟩ (by decide) (by decide)
    (by decide)
  have hC := (lru_cache_spec [(1, ⟨10, 0, 1⟩), (2, ⟨20, 0, 1⟩)] 2 none 5 2 25
    [(1, 10), (2, 20), (3, 30)]).2.2.1 ⟨20, 0, 1⟩ (by decide) (by decide)
  have hD := (lru_cache_spec [(1, ⟨10, 0, 1⟩), (2, ⟨20, 0, 1⟩)] 2 none 5 3 30
    [(1, 10), (2, 20), (3, 30)]).2.2.2 (by decide) (by decide) (by decide)
  exact ⟨hA.1.trans (by decide), hB.1, hB.2.1.trans (by decide),
    hC.1, hD.1.trans (by decide)⟩

/-- C8: the backpressure queue rejects on full without mutation and invoking
`onFull`; below capacity it appends at the tail and returns `true`; and
`dequeueBatch` removes and returns exactly the FIFO prefix of
`min batchSize size` items, the empty list on an empty queue. -/
theorem dataQueue_enqueue_dequeue_spec {T : Type} (q : DataQueue T) (x : T) :
    (q.maxSize ≤ q.queue.length →
      (q.enqueue x).1 = false ∧ (q.enqueue x).2.1 = q ∧
      (q.enqueue x).2.2 = (if q.hasOnFull then [QueueCallback.onFull] else [])) ∧
    (q.queue.length < q.maxSize →
      (q.enqueue x).1 = true ∧ (q.enqueue x).2.1.queue = q.queue ++ [x]) ∧
    ((q.dequeueBatch.1 = q.queue.take q.batchSize ∧
      q.dequeueBatch.2.1.queue = q.queue.drop q.batchSize) ∧
     q.dequeueBatch.1.length = min q.batchSize q.queue.length ∧
     (q.queue = [] → q.dequeueBatch.1 = [])) := by
  refine ⟨fun hfull => ?_, fun hlt => ?_, ?_⟩
  · simp [DataQueue.enqueue, hfull]
  · simp [DataQueue.enqueue, not_le.mpr hlt]
  · by_cases hq : q.queue.length = 0
    · have hqe : q.queue = [] := List.length_eq_zero.mp hq
      simp [DataQueue.dequeueBatch, hqe]
    · have h1 : q.dequeueBatch =
          (q.queue.take q.batchSize,
           { q with queue := q.queue.drop q.batchSize }, []) := by
        simp [DataQueue.dequeueBatch, hq]
      rw [h1]
      exact ⟨⟨rfl, rfl⟩, by simp [List.length_take],
        fun h => absurd (by simp [h]) hq⟩

/-- C8 witness: a concrete queue at capacity 2 with both callbacks. -/
theorem dataQueue_enqueue_dequeue_spec_witness :
    (let q : DataQueue Nat :=
      { queue := [10, 20], maxSize := 2, batchSize := 1,
        hasOnFull := true, hasOnEmpty := true }
     q.maxSize ≤ q.queue.length ∧ (q.enqueue 30).1 = false ∧
     q.dequeueBatch.1 = [10]) := by
  refine ⟨by decide, ?_, ?_⟩
  · exact ((dataQueue_enqueue_dequeue_spec
      { queue := [10, 20], maxSize := 2, batchSize := 1,
        hasOnFull := true, hasOnEmpty := true } 30).1 (by decide)).1
  · have h := ((dataQueue_enqueue_dequeue_spec
      { queue := [10, 20], maxSize := 2, batchSize := 1,
        hasOnFull := true, hasOnEmpty := true } 30).2.2).1.1
    simpa using h

/-- C10: with an `onEmpty` callback configured, `enqueue` invokes it exactly
when a successful enqueue takes the length from 0 to 1, and neither
`dequeueBatch` nor `clear` ever invokes it. -/
theorem dataQueue_onEmpty_iff_first_insert {T : Type} (q : DataQueue T)
    (x : T) (h : q.hasOnEmpty = true) :
    ((q.enqueue x).2.2 = [QueueCallback.onEmpty] ↔
      ((q.enqueue x).1 = true ∧ q.queue.length = 0 ∧
       (q.enqueue x).2.1.queue.length = 1)) ∧
    q.dequeueBatch.2.2 = [] ∧ q.clear.2 = [] := by
  refine ⟨?_, ?_, rfl⟩
  · by_cases hfull : q.maxSize ≤ q.queue.length
    · simp only [DataQueue.enqueue, if_pos hfull]
      constructor
      · intro hc
        exfalso
        by_cases hf : q.hasOnFull <;> simp [hf] at hc
      · rintro ⟨hc, -⟩
        exact absurd hc (by simp)
    · simp only [DataQueue.enqueue, if_neg hfull]
      by_cases h0 : q.queue.length = 0
      · have : (q.queue ++ [x]).length = 1 := by simp [h0]
        simp [h0, this, h]
      · have : ¬ (q.queue ++ [x]).length = 1 := by
          simp only [List.length_append, List.length_singleton]
          omega
        simp only [this, if_neg, List.length_append, List.length_singleton]
        constructor
        · intro hc
          simp [show ¬ q.queue.length + 1 = 1 by omega] at hc
        · rintro ⟨-, h0', -⟩
          exact absurd h0' h0
  · simp only [DataQueue.dequeueBatch]
    by_cases h0 : q.queue.length = 0 <;> simp [h0]

/-- C10 witness: the first insert into a concrete empty queue. -/
theorem dataQueue_onEmpty_iff_first_insert_witness :
    (let q : DataQueue Nat :=
      { queue := [], maxSize := 2, batchSize := 1,
        hasOnFull := false, hasOnEmpty := true }
     q.hasOnEmpty = true ∧ (q.enqueue 5).2.2 = [QueueCallback.onEmpty]) := by
  constructor
  · decide
  · exact (dataQueue_onEmpty_iff_first_insert
      { queue := [], maxSize := 2, batchSize := 1,
        hasOnFull := false, hasOnEmpty := true } 5 (by decide)).1.mpr
      (by decide)

end Stream
